import Mathlib

/-!
Verification development for the heare-memory storage-and-versioning engine.

The Python sources are embedded shallowly: strings are modelled as `List Char`
(one entry per code point, matching Python string indexing), fallible code
returns `Except`, and I/O outcomes that depend on the environment (git
subprocess results, push attempts) are passed in as explicit parameters.
-/

/-- The char `/` (path separator). -/
def slashChar : Char := '/'

/-- The char `\` (codepoint 92), written via `Char.ofNat`. -/
def backslashChar : Char := Char.ofNat 92

/-- The char `.` used in path extensions and traversal segments. -/
def dotChar : Char := '.'

/-- Carriage return (codepoint 13). -/
def crChar : Char := Char.ofNat 13

/-- Line feed (codepoint 10). -/
def lfChar : Char := Char.ofNat 10

/-- NUL (codepoint 0). -/
def nulChar : Char := Char.ofNat 0

/-- Control characters rejected by `validate_path`, mirroring the Python regex
character class of codepoints 0x00-0x1f and 0x7f. -/
def isCtlChar (c : Char) : Bool := c.toNat ≤ 31 || c.toNat == 127

/-- Does the character pair `a` followed by `b` occur (adjacently) in the list?
All dangerous substring patterns of `validate_path` are two characters long,
so Python `pattern in path` is modelled by this adjacent-pair search. -/
def hasPair (a b : Char) : List Char → Bool
  | c :: d :: rest => (c == a && d == b) || hasPair a b (d :: rest)
  | _ => false

/-- First character is the separator (mirrors `PurePosixPath.is_absolute` for
a raw string argument). -/
def headIsSlash : List Char → Bool
  | c :: _ => c == slashChar
  | [] => false

/-- Last character of a string, if any. -/
def lastChar : List Char → Option Char
  | [] => none
  | [c] => some c
  | _ :: d :: rest => lastChar (d :: rest)

/-- Split on the separator, keeping empty components, as Python
`s.split(sep)` would. `PurePosixPath` parsing is this split followed by
dropping empty and single-dot components. -/
def splitSlash : List Char → List (List Char)
  | [] => [[]]
  | c :: rest =>
    if c = slashChar then [] :: splitSlash rest
    else
      match splitSlash rest with
      | [] => [[c]]
      | g :: gs => (c :: g) :: gs

/-- Join components with the separator (inverse of `splitSlash`). -/
def joinSlash : List (List Char) → List Char
  | [] => []
  | [p] => p
  | p :: q :: rest => p ++ slashChar :: joinSlash (q :: rest)

/-- The components `PurePosixPath(s).parts` yields for a relative path:
split on the separator, dropping empty and `.` components. -/
def posixParts (s : List Char) : List (List Char) :=
  (splitSlash s).filter (fun p => !p.isEmpty && !(p == [dotChar]))

/-- `str(PurePosixPath(s))` for a non-absolute input: the retained components
joined by the separator, or `.` when nothing remains. -/
def posixNormalize (s : List Char) : List Char :=
  let ps := posixParts s
  if ps.isEmpty then [dotChar] else joinSlash ps

/-- The `.md` suffix required of every memory path. -/
def mdSuffix : List Char := ['.', 'm', 'd']

/-- Reserved Windows device names checked by `validate_path`. -/
def reservedNames : List (List Char) :=
  ["CON", "PRN", "AUX", "NUL", "COM1", "COM2", "COM3", "COM4", "COM5",
   "COM6", "COM7", "COM8", "COM9", "LPT1", "LPT2", "LPT3", "LPT4", "LPT5",
   "LPT6", "LPT7", "LPT8", "LPT9"].map String.data

/-- `part.upper().split(".")[0]`: upper-case the segment and keep the text
before the first dot. -/
def upperBase (p : List Char) : List Char :=
  (p.map Char.toUpper).takeWhile (fun c => !(c == dotChar))

/-- Is the path segment a reserved device name, case-insensitively and
ignoring any extension? -/
def isReservedPart (p : List Char) : Bool :=
  reservedNames.contains (upperBase p)

/-- The per-segment checks of the `validate_path` loop body. -/
def partCheck (p : List Char) : Except (List Char) Unit :=
  if p.isEmpty then .error ("Path contains empty segments").data
  else if p == [dotChar] || p == [dotChar, dotChar] then
    .error ("Path contains reserved segment").data
  else if isReservedPart p then .error ("Path contains reserved name").data
  else .ok ()

/-- Run `partCheck` over every segment, stopping at the first failure, as the
`for part in posix_path.parts` loop does. -/
def checkParts : List (List Char) → Except (List Char) Unit
  | [] => .ok ()
  | p :: ps =>
    match partCheck p with
    | .ok _ => checkParts ps
    | .error e => .error e

/-- `path_utils.validate_path`: the full validation chain, in source order.
Empty, overlong, control characters, the dangerous two-character patterns
(`..`, `//`, a backslash, `./`), the `.md` suffix, absoluteness, and the
per-segment loop. (The `PurePosixPath` constructor never raises for a string
argument, so the `ValueError` handler in the source is dead.) -/
def validate_path (s : List Char) : Except (List Char) Unit :=
  if s.isEmpty then .error ("Path cannot be empty").data
  else if 1024 < s.length then .error ("Path too long").data
  else if s.any isCtlChar then .error ("Path contains control characters").data
  else if hasPair dotChar dotChar s then .error ("Path contains dangerous pattern: ..").data
  else if hasPair slashChar slashChar s then .error ("Path contains dangerous pattern: //").data
  else if s.any (fun c => c == backslashChar) then .error ("Path contains dangerous pattern: backslash").data
  else if hasPair dotChar slashChar s then .error ("Path contains dangerous pattern: ./").data
  else if !(mdSuffix.isSuffixOf s) then .error ("Path must end with .md extension").data
  else if headIsSlash s then .error ("Path must be relative").data
  else checkParts (posixParts s)

/-- One pass of Python `s.replace("//", "/")`: leftmost, non-overlapping. -/
def replaceDS : List Char → List Char
  | [] => []
  | [c] => [c]
  | c :: d :: rest =>
    if c = slashChar && d = slashChar then slashChar :: replaceDS rest
    else c :: replaceDS (d :: rest)

/-- The `while "//" in sanitized` loop, with fuel: each pass with a `//`
present strictly shortens the string, so fuel equal to the initial length is
enough for the loop to reach its fixed point. -/
def collapseGo : Nat → List Char → List Char
  | 0, s => s
  | fuel + 1, s => if hasPair slashChar slashChar s then collapseGo fuel (replaceDS s) else s

/-- Remove doubled separators by repeated replacement, as the source loop does. -/
def collapseSlashes (s : List Char) : List Char := collapseGo s.length s

/-- `path_utils.sanitize_path`: backslash conversion, doubled-separator
collapse, leading-separator strip, `PurePosixPath` normalization, `.md`
suffixing, then delegation to `validate_path`. -/
def sanitize_path (s : List Char) : Except (List Char) (List Char) :=
  if s.isEmpty then .error ("Cannot sanitize empty path").data
  else
    let s1 := s.map (fun c => if c = backslashChar then slashChar else c)
    let s2 := collapseSlashes s1
    let s3 := s2.dropWhile (fun c => c = slashChar)
    let s4 := posixNormalize s3
    let s5 := if mdSuffix.isSuffixOf s4 then s4 else s4 ++ mdSuffix
    match validate_path s5 with
    | .ok _ => .ok s5
    | .error e => .error e

/-- Is an `Except` value a success? -/
def exceptOk {ε α : Type} : Except ε α → Bool
  | .ok _ => true
  | .error _ => false

/-- Python truthiness of an optional string setting: `None` and the empty
string both count as unset. -/
def optFalsy : Option (List Char) → Bool
  | none => true
  | some s => s.isEmpty

/-! ## AtomicFileStore (`file_manager.py`) -/

/-- The on-disk store under the memory root: an association of validated
relative paths to the raw character data of each file. -/
abbrev Store : Type := List (List Char × List Char)

/-- Look up a file by path. -/
def storeFind (st : Store) (p : List Char) : Option (List Char) :=
  match st.find? (fun kv => kv.fst == p) with
  | some kv => some kv.snd
  | none => none

/-- Write (create or overwrite) a file at a path. -/
def storeInsert (st : Store) (p c : List Char) : Store :=
  if st.any (fun kv => kv.fst == p) then
    st.map (fun kv => if kv.fst == p then (p, c) else kv)
  else st ++ [(p, c)]

/-- Universal-newline translation performed by reading the file back in text
mode with the default newline handling: CRLF and a lone CR both become LF. -/
def uniNewlines : List Char → List Char
  | [] => []
  | c :: rest =>
    if c = crChar then
      match rest with
      | d :: rest2 =>
        if d = lfChar then lfChar :: uniNewlines rest2 else lfChar :: uniNewlines (d :: rest2)
      | [] => [lfChar]
    else c :: uniNewlines rest

/-- `FileManager.write_file`: sanitize the path, then atomically (temp file
plus rename, under the write lock) place the content at the resolved path.
On a POSIX system the text-mode write stores the content unchanged, since
the line separator written for LF is LF itself. -/
def write_file (st : Store) (path content : List Char) : Except (List Char) Store :=
  match sanitize_path path with
  | .error e => .error e
  | .ok q => .ok (storeInsert st q content)

/-- `FileManager.read_file`: sanitize the path, fail when the file is
missing, otherwise return the text-mode decoding of the stored data, which
applies universal-newline translation. -/
def read_file (st : Store) (path : List Char) : Except (List Char) (List Char) :=
  match sanitize_path path with
  | .error e => .error e
  | .ok q =>
    match storeFind st q with
    | none => .error ("File not found").data
    | some data => .ok (uniNewlines data)

/-- `FileManager.file_exists`: invalid paths count as missing. -/
def file_exists (st : Store) (path : List Char) : Bool :=
  match sanitize_path path with
  | .error _ => false
  | .ok q => (storeFind st q).isSome

/-- Python `str.strip` whitespace set, restricted to the ASCII whitespace
characters relevant to this development. -/
def isPySpace (c : Char) : Bool :=
  c == ' ' || c.toNat == 9 || c.toNat == 10 || c.toNat == 11 || c.toNat == 12 || c.toNat == 13

/-- Python `s.strip()`. -/
def pyStrip (s : List Char) : List Char :=
  ((s.dropWhile isPySpace).reverse.dropWhile isPySpace).reverse

/-- The content validation of `MemoryCreateRequest`: between 1 and 10,000,000
characters, not whitespace-only after stripping, and free of NUL bytes. -/
def contentValid (c : List Char) : Bool :=
  1 ≤ c.length && c.length ≤ 10000000 && !(pyStrip c).isEmpty && !(c.any (fun ch => ch == nulChar))

/-! ## VersionController (`git_manager.py`) -/

/-- `GitOperationResult` without the wall-clock `operation_time` field. -/
structure GitOperationResult where
  success : Bool
  commit_sha : Option (List Char)
  error_message : Option (List Char)
  files_changed : List (List Char)
deriving Repr, DecidableEq

/-- The failure shape every exception handler of `commit_file` produces. -/
def commitFailure (msg : List Char) : GitOperationResult :=
  { success := false, commit_sha := none, error_message := some msg, files_changed := [] }

/-- `GitManager.commit_file`. The interior steps that touch the environment
are passed as explicit outcomes: `repoInitialized` is whether `self.repo` is
set, `writeRes` the outcome of creating the parent directory and writing the
file, and `commitRes` the outcome of staging plus committing (yielding the
new commit sha on success). Every failure is caught and returned as a result
value; the function is total and never throws. -/
def commit_file (repoInitialized : Bool) (writeRes : Except (List Char) Unit)
    (commitRes : Except (List Char) (List Char)) (filePath : List Char) :
    GitOperationResult :=
  if !repoInitialized then commitFailure ("Repository not initialized").data
  else
    match writeRes with
    | .error e => commitFailure e
    | .ok _ =>
      match commitRes with
      | .error e => commitFailure e
      | .ok sha =>
        { success := true, commit_sha := some sha, error_message := none,
          files_changed := [filePath] }

/-- Operation kinds of `GitBatchOperation`. -/
inductive OpType where
  | create
  | update
  | delete
deriving Repr, DecidableEq

/-- One operation of a `GitBatchOperation`. -/
structure GitOperation where
  operation_type : OpType
  file_path : List Char
  content : Option (List Char)
deriving Repr, DecidableEq

/-- The working tree as seen by `batch_commit`: files by path. -/
abbrev WorkTree : Type := List (List Char × List Char)

/-- Membership test on the working tree. -/
def treeHas (t : WorkTree) (p : List Char) : Bool := t.any (fun kv => kv.fst == p)

/-- Write a file into the working tree (create or overwrite). -/
def treeInsert (t : WorkTree) (p c : List Char) : WorkTree :=
  if treeHas t p then t.map (fun kv => if kv.fst == p then (p, c) else kv)
  else t ++ [(p, c)]

/-- Remove a file from the working tree. -/
def treeErase (t : WorkTree) (p : List Char) : WorkTree :=
  t.filter (fun kv => !(kv.fst == p))

/-- The operation loop of `batch_commit`: apply each operation in order to
the working tree, accumulating the staged paths in `files_changed` order.
A create or update with missing or empty content raises, which surfaces as
the `err` component (with the paths accumulated so far), exactly as the
enclosing exception handler observes them. A delete of an absent path is
skipped. Every create or update writes and stages its path unconditionally,
even when the written content equals the existing content. -/
def batchGo : WorkTree → List GitOperation → WorkTree × List (List Char) × Option (List Char)
  | t, [] => (t, [], none)
  | t, op :: rest =>
    match op.operation_type with
    | .delete =>
      if treeHas t op.file_path then
        let out := batchGo (treeErase t op.file_path) rest
        (out.fst, op.file_path :: out.snd.fst, out.snd.snd)
      else batchGo t rest
    | _ =>
      match op.content with
      | none => (t, [], some ("Content required").data)
      | some c =>
        if c.isEmpty then (t, [], some ("Content required").data)
        else
          let out := batchGo (treeInsert t op.file_path c) rest
          (out.fst, op.file_path :: out.snd.fst, out.snd.snd)

/-- Result of `batch_commit` together with the final working tree and how
many commits the call created. -/
structure BatchOut where
  result : GitOperationResult
  tree : WorkTree
  commits : Nat

/-- `GitManager.batch_commit`: run the operation loop; on an interior failure
return a failure result carrying the paths staged so far and create no
commit; otherwise create exactly one commit when any path was staged, and a
success result with no commit when none was. -/
def batch_commit (t : WorkTree) (ops : List GitOperation) : BatchOut :=
  let step := batchGo t ops
  match step.snd.snd with
  | some e =>
    { result := { success := false, commit_sha := none, error_message := some e,
                  files_changed := step.snd.fst },
      tree := step.fst, commits := 0 }
  | none =>
    if step.snd.fst.isEmpty then
      { result := { success := true, commit_sha := none, error_message := none,
                    files_changed := [] },
        tree := step.fst, commits := 0 }
    else
      { result := { success := true, commit_sha := some ("batchsha").data,
                    error_message := none, files_changed := step.snd.fst },
        tree := step.fst, commits := 1 }

/-- `GitPushResult` without the wall-clock `total_time` field. -/
structure GitPushResult where
  success : Bool
  error_message : Option (List Char)
  retry_count : Nat
deriving Repr, DecidableEq

/-- Outcome of one `push_changes` call: the result, the pending push queue
after the call, and the backoff delays (in seconds) slept between attempts. -/
structure PushOut where
  result : GitPushResult
  queue : List (List Char)
  delays : List Nat
deriving Repr, DecidableEq

/-- The `for attempt in range(max_retries + 1)` loop of `push_changes`.
`attemptOk i` is whether the underlying push subprocess succeeds on attempt
`i`. On success the queue is cleared and the attempt index reported as the
retry count; while attempts remain a failure sleeps `2 ^ attempt` seconds and
retries; on the final attempt the failure is returned with the queue kept.
The fuel-exhausted case mirrors the unreachable fallthrough return. -/
def pushLoop (attemptOk : Nat → Bool) (maxRetries : Nat) (queue : List (List Char)) :
    Nat → Nat → PushOut
  | _, 0 =>
    { result := { success := false, error_message := some ("Unexpected error").data,
                  retry_count := maxRetries },
      queue := queue, delays := [] }
  | attempt, rem + 1 =>
    if attemptOk attempt then
      { result := { success := true, error_message := none, retry_count := attempt },
        queue := [], delays := [] }
    else if attempt < maxRetries then
      let out := pushLoop attemptOk maxRetries queue (attempt + 1) rem
      { out with delays := 2 ^ attempt :: out.delays }
    else
      { result := { success := false, error_message := some ("Push failed").data,
                    retry_count := attempt },
        queue := queue, delays := [] }

/-- `GitManager.push_changes`: a no-op success when no token or remote URL is
configured or when the pending queue is empty; otherwise run the retry loop
over a snapshot of the queue. -/
def push_changes (githubToken gitRemoteUrl : Option (List Char))
    (queue : List (List Char)) (attemptOk : Nat → Bool) (maxRetries : Nat) : PushOut :=
  if optFalsy githubToken || optFalsy gitRemoteUrl then
    { result := { success := true, error_message := none, retry_count := 0 },
      queue := queue, delays := [] }
  else if queue.isEmpty then
    { result := { success := true, error_message := none, retry_count := 0 },
      queue := queue, delays := [] }
  else pushLoop attemptOk maxRetries queue 0 (maxRetries + 1)

/-! ## Repository initialization and startup checks
(`git_manager.py` initialize path, `startup.py` step 5) -/

/-- The configuration fields `initialize_repository` consults. -/
structure GitSettings where
  git_remote_url : Option (List Char)
  github_token : Option (List Char)
deriving Repr, DecidableEq

/-- The repository state `GitManager` observes and mutates during
initialization: whether a repository exists at the store root, the URL of the
`origin` remote if one is configured, and whether the service commit identity
has been written. -/
structure RepoState where
  gitDirExists : Bool
  originUrl : Option (List Char)
  userConfigured : Bool
deriving Repr, DecidableEq

/-- `GitManager._verify_remote_config`: with no repository or no configured
remote URL it does nothing. When the `origin` remote exists and its URL
differs from the configured one, it only logs a warning (reported here as the
second component) and leaves the state unchanged; when `origin` is missing,
it creates the remote pointing at the configured URL. It never fails. -/
def verify_remote_config (cfgRemote : Option (List Char)) (r : RepoState) :
    RepoState × Bool :=
  match cfgRemote with
  | none => (r, false)
  | some url =>
    if url.isEmpty then (r, false)
    else
      match r.originUrl with
      | some actual => if actual == url then (r, false) else (r, true)
      | none => ({ r with originUrl := some url }, false)

/-- `GitManager.initialize_repository`: create or clone the repository when
the store root has none (a clone sets `origin` to the configured remote, a
fresh init leaves it unset), otherwise open the existing one; then configure
the commit identity and run `_verify_remote_config`. The returned flag is
whether a remote URL mismatch warning was logged. The environment failures
the source handler wraps (clone or filesystem errors) do not occur on this
pure state, so the interesting paths are all explicit. -/
def initialize_repository (s : GitSettings) (r : RepoState) :
    Except (List Char) (RepoState × Bool) :=
  let r1 :=
    if !r.gitDirExists then
      match s.git_remote_url with
      | some url =>
        if url.isEmpty then { gitDirExists := true, originUrl := none, userConfigured := false }
        else { gitDirExists := true, originUrl := some url, userConfigured := false }
      | none => { gitDirExists := true, originUrl := none, userConfigured := false }
    else r
  let r2 := { r1 with userConfigured := true }
  let out := verify_remote_config s.git_remote_url r2
  .ok (out.fst, out.snd)

/-- Step 5 of `perform_startup_checks` in `startup.py`: when a remote URL is
configured and the repository status reports an `origin` URL that differs
from it, raise a startup-fatal error; otherwise pass. -/
def startup_remote_check (s : GitSettings) (r : RepoState) : Except (List Char) Unit :=
  match s.git_remote_url with
  | none => .ok ()
  | some url =>
    if url.isEmpty then .ok ()
    else
      match r.originUrl with
      | some actual =>
        if actual == url then .ok () else .error ("Git remote URL mismatch").data
      | none => .ok ()

/-! ## StoreOrchestrator (`services/memory_service.py`) -/

/-- A memory node as the service returns it: path, content and the metadata
revision id (the `sha` field of `MemoryNodeMetadata`). -/
structure MemoryNode where
  path : List Char
  content : List Char
  sha : List Char
deriving Repr, DecidableEq

/-- Constructing `MemoryNodeMetadata` from a possibly-missing commit sha.
The pydantic field `sha : str` accepts a string and rejects `None` with a
validation error. -/
def mkNodeMetadataSha (sha : Option (List Char)) : Except (List Char) (List Char) :=
  match sha with
  | some s => .ok s
  | none => .error ("validation error: sha must be a string").data

/-- `MemoryService.create_or_update_memory_node`. The git commit is the
`commit_file` model; its environment outcomes (`repoInitialized`, `writeRes`,
`commitRes`) are passed through. The source passes the commit message in the
content argument slot of `commit_file`; the model keeps the same call shape,
though only the resulting `commit_sha` matters here. The handler that would
substitute the sentinel for the sha fires only when the `commit_file` call
itself raises, and `commit_file` is total, so the commit result is consumed
directly: a failed commit yields `commit_sha = none`, metadata construction
fails validation, and the enclosing handler raises a service error. -/
def create_or_update_memory_node (st : Store) (repoInitialized : Bool)
    (writeRes : Except (List Char) Unit) (commitRes : Except (List Char) (List Char))
    (path content : List Char) : Except (List Char) (MemoryNode × Bool) :=
  let fileExists := file_exists st path
  match write_file st path content with
  | .error e => .error (("Failed to create/update memory node: ").data ++ e)
  | .ok _ =>
    let commitResult := commit_file repoInitialized writeRes commitRes path
    let gitSha := commitResult.commit_sha
    match mkNodeMetadataSha gitSha with
    | .error e => .error (("Internal error creating/updating memory node: ").data ++ e)
    | .ok sha => .ok ({ path := path, content := content, sha := sha }, !fileExists)

/-! ## SearchEngine highlighting (`search_backend.py`) -/

/-- The dangerous-input conditions of the path-safety property: a `..`
occurrence, a leading separator, a backslash, a doubled separator, a control
character, or a reserved device name segment. -/
def badPath (s : List Char) : Bool :=
  hasPair dotChar dotChar s || headIsSlash s || s.any (fun c => c == backslashChar) ||
  hasPair slashChar slashChar s || s.any isCtlChar ||
  (posixParts s).any isReservedPart

/-- A batch operation the request layer would admit: create and update carry
nonempty content; delete carries anything. -/
def opWellFormed (op : GitOperation) : Bool :=
  match op.operation_type, op.content with
  | .delete, _ => true
  | _, none => false
  | _, some c => !c.isEmpty

/-- Every operation of the batch is a delete of a path absent from the given
working tree (the only kind of operation `batch_commit` treats as a no-op). -/
def allNoopDeletes (t : WorkTree) : List GitOperation → Bool
  | [] => true
  | op :: rest =>
    (op.operation_type == .delete) && !(treeHas t op.file_path) && allNoopDeletes t rest

/-- Content free of carriage returns: the class of content that text-mode
reading returns unchanged. -/
def noCRChar : List Char → Bool
  | [] => true
  | c :: rest => !(c == crChar) && noCRChar rest

/-- The paths a batch mutates, stated at the level of the claim: every
create/update path, plus every delete path whose file exists at the moment
the delete executes, in operation order. -/
def mutatedPaths (t : WorkTree) : List GitOperation → List (List Char)
  | [] => []
  | op :: rest =>
    match op.operation_type with
    | .delete =>
      if treeHas t op.file_path then
        op.file_path :: mutatedPaths (treeErase t op.file_path) rest
      else mutatedPaths t rest
    | _ =>
      match op.content with
      | none => op.file_path :: mutatedPaths t rest
      | some c => op.file_path :: mutatedPaths (treeInsert t op.file_path c) rest

theorem hasPair_tail {a b c : Char} {s : List Char} (h : hasPair a b (c :: s) = false) :
    hasPair a b s = false := by
  cases s with
  | nil => rfl
  | cons d rest =>
    unfold hasPair at h
    simp only [Bool.or_eq_false_iff] at h
    exact h.2

theorem lastChar_cons {c : Char} {s : List Char} (h : s ≠ []) :
    lastChar (c :: s) = lastChar s := by
  cases s with
  | nil => exact absurd rfl h
  | cons d rest => rfl

theorem lastChar_append_md (t : List Char) : lastChar (t ++ mdSuffix) = some 'd' := by
  induction t with
  | nil => rfl
  | cons c t ih =>
    rw [List.cons_append, lastChar_cons (by simp [mdSuffix]), ih]

theorem lastChar_of_md {s : List Char} (h : mdSuffix.isSuffixOf s = true) :
    lastChar s = some 'd' := by
  have hsuf : mdSuffix <:+ s := by
    simpa using h
  obtain ⟨t, ht⟩ := hsuf
  rw [← ht, lastChar_append_md]

theorem splitSlash_ne_nil (s : List Char) : splitSlash s ≠ [] := by
  cases s with
  | nil => simp [splitSlash]
  | cons c rest =>
    by_cases h : c = slashChar
    · simp [splitSlash, h]
    · simp only [splitSlash, if_neg h]
      cases hs : splitSlash rest <;> simp

theorem splitSlash_cons_ne {c : Char} (rest : List Char) (h : c ≠ slashChar) :
    ∃ g gs, splitSlash rest = g :: gs ∧ splitSlash (c :: rest) = (c :: g) :: gs := by
  cases hs : splitSlash rest with
  | nil => exact absurd hs (splitSlash_ne_nil rest)
  | cons g gs =>
    refine ⟨g, gs, rfl, ?_⟩
    simp [splitSlash, h, hs]

theorem joinSlash_splitSlash (s : List Char) : joinSlash (splitSlash s) = s := by
  induction s with
  | nil => rfl
  | cons c rest ih =>
    by_cases h : c = slashChar
    · subst h
      simp only [splitSlash, if_pos rfl]
      cases hs : splitSlash rest with
      | nil => exact absurd hs (splitSlash_ne_nil rest)
      | cons g gs =>
        rw [hs] at ih
        simp [joinSlash, ih]
    · obtain ⟨g, gs, hs, hcons⟩ := splitSlash_cons_ne rest h
      rw [hcons]
      rw [hs] at ih
      cases gs with
      | nil =>
        simp only [joinSlash] at ih ⊢
        rw [ih]
      | cons g2 gs2 =>
        simp only [joinSlash] at ih ⊢
        rw [List.cons_append, ih]

theorem comps_good : ∀ n s, s.length ≤ n → s ≠ [] → headIsSlash s = false →
    hasPair slashChar slashChar s = false → hasPair dotChar slashChar s = false →
    lastChar s ≠ some slashChar → lastChar s ≠ some dotChar →
    ∀ p ∈ splitSlash s, p ≠ [] ∧ p ≠ [dotChar] := by
  intro n
  induction n with
  | zero =>
    intro s hlen hne
    cases s with
    | nil => exact absurd rfl hne
    | cons c rest => simp at hlen
  | succ n ih =>
    intro s hlen hne hhead hss hds hlastS hlastD p hp
    match s with
    | [c] =>
      have hc : c ≠ slashChar := by
        simp only [headIsSlash] at hhead
        exact fun hcc => by simp [hcc] at hhead
      have hcd : c ≠ dotChar := fun hcc => hlastD (by simp [lastChar, hcc])
      obtain ⟨g, gs, hs, hcons⟩ := splitSlash_cons_ne ([] : List Char) hc
      simp only [splitSlash] at hs
      cases hs
      rw [hcons] at hp
      simp only [List.mem_singleton] at hp
      subst hp
      exact ⟨by simp, by simp [hcd]⟩
    | c :: d :: rest =>
      have hc : c ≠ slashChar := by
        simp only [headIsSlash] at hhead
        exact fun hcc => by simp [hcc] at hhead
      by_cases hd : d = slashChar
      · subst hd
        obtain ⟨g, gs, hs, hcons⟩ := splitSlash_cons_ne (slashChar :: rest) hc
        simp only [splitSlash, if_pos rfl] at hs
        cases hs
        rw [hcons] at hp
        rcases List.mem_cons.mp hp with h1 | h1
        · subst h1
          have hcd : c ≠ dotChar := by
            intro hcc
            subst hcc
            unfold hasPair at hds
            simp at hds
          exact ⟨by simp, by simp [hcd]⟩
        · -- p is a component of rest
          have hrne : rest ≠ [] := by
            intro hr
            subst hr
            exact hlastS rfl
          have hrhead : headIsSlash rest = false := by
            cases rest with
            | nil => rfl
            | cons e rest2 =>
              have := hasPair_tail hss
              unfold hasPair at this
              simp only [Bool.or_eq_false_iff] at this
              have he : ¬(e = slashChar) := by
                intro hee
                subst hee
                simp at this
              simp [headIsSlash, he]
          refine ih rest ?_ hrne hrhead (hasPair_tail (hasPair_tail hss))
            (hasPair_tail (hasPair_tail hds)) ?_ ?_ p h1
          · simp only [List.length_cons] at hlen
            omega
          · rw [← lastChar_cons (c := slashChar) hrne, ← lastChar_cons (c := c) (by simp)]
            exact hlastS
          · rw [← lastChar_cons (c := slashChar) hrne, ← lastChar_cons (c := c) (by simp)]
            exact hlastD
      · -- d is not a separator: the head component has at least two characters
        obtain ⟨g2, gs2, hs2, hcons2⟩ := splitSlash_cons_ne rest hd
        obtain ⟨g, gs, hs, hcons⟩ := splitSlash_cons_ne (d :: rest) hc
        rw [hcons2] at hs
        cases hs
        rw [hcons] at hp
        rcases List.mem_cons.mp hp with h1 | h1
        · subst h1
          exact ⟨by simp, by simp⟩
        · have hdr : (d :: rest) ≠ [] := by simp
          have hdrhead : headIsSlash (d :: rest) = false := by simp [headIsSlash, hd]
          refine ih (d :: rest) ?_ hdr hdrhead (hasPair_tail hss) (hasPair_tail hds) ?_ ?_ p ?_
          · simp only [List.length_cons] at hlen ⊢
            omega
          · rw [← lastChar_cons (c := c) (by simp)]
            exact hlastS
          · rw [← lastChar_cons (c := c) (by simp)]
            exact hlastD
          · rw [hcons2]
            exact List.mem_cons_of_mem _ h1

theorem checkParts_ok {l : List (List Char)} (h : checkParts l = .ok ()) :
    ∀ p ∈ l, partCheck p = .ok () := by
  induction l with
  | nil => simp
  | cons q l ih =>
    intro p hp
    unfold checkParts at h
    cases hq : partCheck q with
    | error e =>
      rw [hq] at h
      exact absurd h (by simp)
    | ok u =>
      rw [hq] at h
      rcases List.mem_cons.mp hp with h1 | h1
      · subst h1
        cases u
        exact hq
      · exact ih h p h1

theorem validate_ok_facts {s : List Char} (h : validate_path s = .ok ()) :
    s.isEmpty = false ∧ s.any isCtlChar = false ∧ hasPair dotChar dotChar s = false ∧
    hasPair slashChar slashChar s = false ∧ s.any (fun c => c == backslashChar) = false ∧
    hasPair dotChar slashChar s = false ∧ mdSuffix.isSuffixOf s = true ∧
    headIsSlash s = false ∧ checkParts (posixParts s) = .ok () := by
  unfold validate_path at h
  split_ifs at h with h1 h2 h3 h4 h5 h6 h7 h8 h9
  refine ⟨Bool.eq_false_iff.mpr h1, Bool.eq_false_iff.mpr h3, Bool.eq_false_iff.mpr h4,
    Bool.eq_false_iff.mpr h5, Bool.eq_false_iff.mpr h6, Bool.eq_false_iff.mpr h7,
    by simpa using Bool.eq_false_iff.mpr h8, Bool.eq_false_iff.mpr h9, h⟩

theorem posixParts_of_valid {s : List Char} (hne : s ≠ [])
    (hhead : headIsSlash s = false) (hss : hasPair slashChar slashChar s = false)
    (hds : hasPair dotChar slashChar s = false) (hmd : mdSuffix.isSuffixOf s = true) :
    posixParts s = splitSlash s := by
  unfold posixParts
  rw [List.filter_eq_self]
  intro p hp
  have hlast : lastChar s = some 'd' := lastChar_of_md hmd
  have hgood := comps_good s.length s le_rfl hne hhead hss hds
    (by rw [hlast]; decide) (by rw [hlast]; decide) p hp
  simp only [Bool.and_eq_true, Bool.not_eq_true]
  constructor
  · simpa [List.isEmpty_iff] using hgood.1
  · simpa using hgood.2

theorem collapseGo_of_no_pair {s : List Char}
    (h : hasPair slashChar slashChar s = false) (n : Nat) : collapseGo n s = s := by
  cases n with
  | zero => rfl
  | succ n => simp [collapseGo, h]

theorem map_backslash_id {s : List Char}
    (h : s.any (fun c => c == backslashChar) = false) :
    s.map (fun c => if c = backslashChar then slashChar else c) = s := by
  induction s with
  | nil => rfl
  | cons c rest ih =>
    simp only [List.any_cons, Bool.or_eq_false_iff] at h
    have hc : c ≠ backslashChar := by simpa using h.1
    simp [hc, ih h.2]

theorem dropWhile_of_head_ne {s : List Char} (h : headIsSlash s = false) :
    s.dropWhile (fun c => c = slashChar) = s := by
  cases s with
  | nil => rfl
  | cons c rest =>
    have hc : c ≠ slashChar := by simpa [headIsSlash] using h
    simp [List.dropWhile_cons, hc]

theorem sanitize_of_valid {q : List Char} (h : validate_path q = .ok ()) :
    sanitize_path q = .ok q := by
  obtain ⟨hemp, _hctl, _hdd, hss, hbs, hds, hmd, hhead, _hparts⟩ := validate_ok_facts h
  have hne : q ≠ [] := by simpa [List.isEmpty_iff] using hemp
  have e1 : q.map (fun c => if c = backslashChar then slashChar else c) = q :=
    map_backslash_id hbs
  have e2 : collapseSlashes q = q := by
    unfold collapseSlashes
    exact collapseGo_of_no_pair hss _
  have e3 : q.dropWhile (fun c => c = slashChar) = q := dropWhile_of_head_ne hhead
  have e4 : posixNormalize q = q := by
    unfold posixNormalize
    rw [posixParts_of_valid hne hhead hss hds hmd]
    rw [if_neg (by simpa [List.isEmpty_iff] using splitSlash_ne_nil q)]
    exact joinSlash_splitSlash q
  unfold sanitize_path
  rw [if_neg (by simp [hemp])]
  simp only [e1, e2, e3, e4, hmd, if_true, h]

theorem except_match_ok {v q : List Char} {x : Except (List Char) Unit}
    (h : (match x with
          | .ok _ => Except.ok v
          | .error e => (Except.error e : Except (List Char) (List Char))) = .ok q) :
    x = .ok () ∧ v = q := by
  cases x with
  | ok u =>
    cases u
    simp only [Except.ok.injEq] at h
    exact ⟨rfl, h⟩
  | error e => exact absurd h (by simp)

theorem sanitize_ok_valid {p q : List Char} (h : sanitize_path p = .ok q) :
    validate_path q = .ok () := by
  unfold sanitize_path at h
  rw [if_neg] at h
  · obtain ⟨hv, hq⟩ := except_match_ok h
    rw [← hq]
    exact hv
  · intro hemp
    rw [if_pos hemp] at h
    exact absurd h (by simp)

/-! ## Claim theorems: path validation and sanitization -/

/-- Claim C6: sanitization is idempotent. For every input string on which
`sanitize_path` succeeds, sanitizing the output again succeeds and returns
the output unchanged. -/
theorem sanitize_path_idempotent (p q : List Char) (h : sanitize_path p = .ok q) :
    sanitize_path q = .ok q :=
  sanitize_of_valid (sanitize_ok_valid h)

/-- Witness for C6 at a concrete input: sanitizing a path with a leading and
a doubled separator yields a fixed point of `sanitize_path`. -/
theorem sanitize_path_idempotent_witness :
    sanitize_path (("notes/todo.md").data) = .ok (("notes/todo.md").data) :=
  sanitize_path_idempotent (("/notes//todo").data) (("notes/todo.md").data) rfl

/-- Claim C7: every string containing a traversal pair, a leading separator,
a backslash, a doubled separator, a control character, or a reserved device
name segment (case-insensitively, ignoring extension) is rejected by
`validate_path`; the validator never returns success on such input. -/
theorem validate_rejects_dangerous_paths (s : List Char) (h : badPath s = true) :
    exceptOk (validate_path s) = false := by
  by_contra hok
  have hok2 : exceptOk (validate_path s) = true := by
    cases hv : exceptOk (validate_path s) with
    | true => rfl
    | false => exact absurd hv hok
  have hv : validate_path s = .ok () := by
    cases hv : validate_path s with
    | ok u => cases u; rfl
    | error e => rw [hv] at hok2; exact absurd hok2 (by simp [exceptOk])
  obtain ⟨_hemp, hctl, hdd, hss, hbs, _hds, _hmd, hhead, hparts⟩ := validate_ok_facts hv
  have hres : (posixParts s).any isReservedPart = false := by
    rw [List.any_eq_false]
    intro part hpart
    have hpc := checkParts_ok hparts part hpart
    unfold partCheck at hpc
    split_ifs at hpc with g1 g2 g3
    exact g3
  rw [badPath, hdd, hhead, hbs, hss, hctl, hres] at h
  simp at h

/-- Witness for C7 at a concrete input: a path whose first segment is a
reserved device name is rejected. -/
theorem validate_rejects_dangerous_paths_witness :
    exceptOk (validate_path (("con/x.md").data)) = false :=
  validate_rejects_dangerous_paths (("con/x.md").data) (by decide)

/-- Claim C9: `validate_path` rejects two consecutive dots as a raw
substring: the filename with a double dot inside its stem is rejected even
though none of its path segments is a traversal segment, and since every
successful `sanitize_path` output passes `validate_path`, sanitization can
never produce it. -/
theorem double_dot_rejected_raw_substring :
    exceptOk (validate_path (("a..b.md").data)) = false ∧
    (posixParts (("a..b.md").data)).all (fun part => !(part == [dotChar, dotChar])) = true ∧
    ∀ p : List Char, sanitize_path p ≠ .ok (("a..b.md").data) := by
  refine ⟨by decide, by decide, ?_⟩
  intro p h
  have hv := sanitize_ok_valid h
  have hbad : exceptOk (validate_path (("a..b.md").data)) = false := by decide
  rw [hv] at hbad
  exact absurd hbad (by simp [exceptOk])

/-- Witness for C9 at a concrete input: sanitizing the stem itself does not
produce the double-dotted filename. -/
theorem double_dot_rejected_raw_substring_witness :
    sanitize_path (("a..b").data) ≠ .ok (("a..b.md").data) :=
  double_dot_rejected_raw_substring.2.2 (("a..b").data)

/-! ## Helper lemmas: file store and content -/

theorem uniNewlines_of_noCR {c : List Char} (h : noCRChar c = true) :
    uniNewlines c = c := by
  induction c with
  | nil => rfl
  | cons x rest ih =>
    unfold noCRChar at h
    simp only [Bool.and_eq_true, Bool.not_eq_true] at h
    have hx : x ≠ crChar := by simpa using h.1
    unfold uniNewlines
    rw [if_neg hx, ih h.2]

theorem storeFind_map_overwrite (st : Store) (q c : List Char)
    (h : st.any (fun kv => kv.fst == q) = true) :
    storeFind (st.map (fun kv => if kv.fst == q then (q, c) else kv)) q = some c := by
  induction st with
  | nil => simp at h
  | cons kv rest ih =>
    by_cases hk : (kv.fst == q) = true
    · simp [storeFind, List.find?, hk]
    · simp only [List.any_cons, Bool.or_eq_true] at h
      rcases h with h1 | h1
      · exact absurd h1 hk
      · simp only [List.map_cons, if_neg hk]
        unfold storeFind at ih ⊢
        simp only [List.find?, hk]
        exact ih h1

theorem storeFind_append_new (st : Store) (q c : List Char)
    (h : st.any (fun kv => kv.fst == q) = false) :
    storeFind (st ++ [(q, c)]) q = some c := by
  induction st with
  | nil => simp [storeFind, List.find?]
  | cons kv rest ih =>
    simp only [List.any_cons, Bool.or_eq_false_iff] at h
    simp only [List.cons_append]
    unfold storeFind at ih ⊢
    simp only [List.find?, h.1]
    exact ih h.2

theorem read_file_of_sanitized {st : Store} {p q : List Char}
    (hs : sanitize_path p = .ok q) :
    read_file st p = (match storeFind st q with
      | none => Except.error (("File not found").data)
      | some data => Except.ok (uniNewlines data)) := by
  unfold read_file
  rw [hs]

theorem storeFind_insert (st : Store) (q c : List Char) :
    storeFind (storeInsert st q c) q = some c := by
  unfold storeInsert
  by_cases h : st.any (fun kv => kv.fst == q) = true
  · rw [if_pos h]
    exact storeFind_map_overwrite st q c h
  · rw [if_neg h]
    exact storeFind_append_new st q c (Bool.eq_false_iff.mpr h)

theorem pyStrip_replicate_a (n : Nat) :
    pyStrip (List.replicate n 'a') = List.replicate n 'a' := by
  have hdrop : ∀ m, (List.replicate m 'a').dropWhile isPySpace = List.replicate m 'a' := by
    intro m
    cases m with
    | zero => rfl
    | succ m => simp [List.replicate_succ, List.dropWhile_cons, isPySpace]
  unfold pyStrip
  rw [hdrop, List.reverse_replicate, hdrop, List.reverse_replicate]

/-! ## Claim theorems: write/read round trip and the content boundary -/

/-- Claim C8 (amended): a successful write followed by a read of the same
path returns the content exactly, provided the content contains no carriage
return; the 10,000,000-character boundary content passes request validation
while any 10,000,001-character content fails it. -/
theorem write_read_roundtrip :
    (∀ (st : Store) (p c : List Char) (st2 : Store),
      write_file st p c = .ok st2 → noCRChar c = true → read_file st2 p = .ok c) ∧
    contentValid (List.replicate 10000000 'a') = true ∧
    (∀ c : List Char, 10000000 < c.length → contentValid c = false) := by
  refine ⟨?_, ?_, ?_⟩
  · intro st p c st2 hw hcr
    unfold write_file at hw
    cases hs : sanitize_path p with
    | error e => rw [hs] at hw; exact absurd hw (by simp)
    | ok q =>
      rw [hs] at hw
      simp only [Except.ok.injEq] at hw
      rw [read_file_of_sanitized hs, ← hw, storeFind_insert]
      show Except.ok (uniNewlines c) = Except.ok c
      rw [uniNewlines_of_noCR hcr]
  · unfold contentValid
    have h1 : (List.replicate 10000000 'a').length = 10000000 := by
      rw [List.length_replicate]
    rw [pyStrip_replicate_a]
    have h2 : (List.replicate 10000000 'a').any (fun ch => ch == nulChar) = false := by
      rw [List.any_eq_false]
      intro x hx
      rw [List.eq_of_mem_replicate hx]
      decide
    have h3 : (List.replicate 10000000 'a').isEmpty = false := by
      rw [show (10000000 : Nat) = 9999999 + 1 from rfl, List.replicate_succ]
      rfl
    rw [h1, h2, h3]
    decide
  · intro c hc
    unfold contentValid
    have h2 : decide (c.length ≤ 10000000) = false := by
      simp only [decide_eq_false_iff_not]
      omega
    rw [h2]
    simp

/-- Witness for C8 at concrete inputs: a two-character file round-trips, and
content one character beyond the boundary is rejected. -/
theorem write_read_roundtrip_witness :
    read_file (storeInsert [] (("a.md").data) (("hi").data)) (("a.md").data) =
      .ok (("hi").data) ∧
    contentValid (List.replicate 10000001 'a') = false := by
  constructor
  · exact write_read_roundtrip.1 [] (("a.md").data) (("hi").data)
      (storeInsert [] (("a.md").data) (("hi").data)) rfl rfl
  · exact write_read_roundtrip.2.2 (List.replicate 10000001 'a')
      (by rw [List.length_replicate]; omega)

/-- Counterexample for C8 as stated: content containing a carriage return is
valid request content and is durably written, but reading it back yields the
carriage return translated to a line feed, so the round trip is not
byte-for-byte. -/
theorem write_read_cr_counterexample :
    contentValid ['x', crChar, 'y'] = true ∧
    write_file [] (("a.md").data) ['x', crChar, 'y'] =
      .ok [((("a.md").data), ['x', crChar, 'y'])] ∧
    read_file [((("a.md").data), ['x', crChar, 'y'])] (("a.md").data) =
      .ok ['x', lfChar, 'y'] ∧
    (['x', lfChar, 'y'] : List Char) ≠ ['x', crChar, 'y'] := by
  refine ⟨by decide, rfl, rfl, by decide⟩

/-! ## Claim theorems: version control -/

/-- Claim C4: `commit_file` never raises. For every combination of
environment outcomes and inputs, the result is either the success shape (a
commit sha and the single changed file) or exactly the failure shape:
success false, no commit sha, an empty changed-files list, and an error
message. -/
theorem commit_file_never_raises (repoInitialized : Bool)
    (writeRes : Except (List Char) Unit) (commitRes : Except (List Char) (List Char))
    (filePath : List Char) :
    (∃ sha, commit_file repoInitialized writeRes commitRes filePath =
      { success := true, commit_sha := some sha, error_message := none,
        files_changed := [filePath] }) ∨
    (∃ msg, commit_file repoInitialized writeRes commitRes filePath =
      { success := false, commit_sha := none, error_message := some msg,
        files_changed := [] }) := by
  unfold commit_file commitFailure
  cases repoInitialized with
  | false => exact Or.inr ⟨_, rfl⟩
  | true =>
    cases writeRes with
    | error e => exact Or.inr ⟨e, rfl⟩
    | ok u =>
      cases commitRes with
      | error e => exact Or.inr ⟨e, rfl⟩
      | ok sha => exact Or.inl ⟨sha, rfl⟩

/-- Claim C3: push with maxRetries = 3, on a configured remote with a
nonempty pending queue. When the underlying push fails twice and succeeds on
the third attempt, the result is success with retry count 2, the queue is
cleared, and the two backoff delays slept were 1s and 2s. When every attempt
fails, the result is failure, the queue is left exactly as it was, and the
delays slept were 1s, 2s, 4s. -/
theorem push_retry_backoff (tok url : List Char) (q : List (List Char))
    (htok : tok ≠ []) (hurl : url ≠ []) (hq : q ≠ []) :
    (push_changes (some tok) (some url) q (fun i => decide (2 ≤ i)) 3).result.success = true ∧
    (push_changes (some tok) (some url) q (fun i => decide (2 ≤ i)) 3).result.retry_count = 2 ∧
    (push_changes (some tok) (some url) q (fun i => decide (2 ≤ i)) 3).queue = [] ∧
    (push_changes (some tok) (some url) q (fun i => decide (2 ≤ i)) 3).delays = [1, 2] ∧
    (push_changes (some tok) (some url) q (fun _ => false) 3).result.success = false ∧
    (push_changes (some tok) (some url) q (fun _ => false) 3).queue = q ∧
    (push_changes (some tok) (some url) q (fun _ => false) 3).delays = [1, 2, 4] := by
  have hqe : q.isEmpty = false := by
    cases q with
    | nil => exact absurd rfl hq
    | cons a l => rfl
  have htok2 : tok.isEmpty = false := by
    cases tok with
    | nil => exact absurd rfl htok
    | cons a l => rfl
  have hurl2 : url.isEmpty = false := by
    cases url with
    | nil => exact absurd rfl hurl
    | cons a l => rfl
  unfold push_changes optFalsy
  simp only [htok2, hurl2, Bool.or_self, Bool.false_eq_true, if_false, hqe]
  unfold pushLoop
  norm_num
  unfold pushLoop
  norm_num
  unfold pushLoop
  norm_num
  unfold pushLoop
  norm_num

/-- Witness for C3 at a concrete queue of one pending commit. -/
theorem push_retry_backoff_witness :
    (push_changes (some (("t").data)) (some (("u").data)) [("c1").data]
      (fun i => decide (2 ≤ i)) 3).result.success = true ∧
    (push_changes (some (("t").data)) (some (("u").data)) [("c1").data]
      (fun i => decide (2 ≤ i)) 3).result.retry_count = 2 ∧
    (push_changes (some (("t").data)) (some (("u").data)) [("c1").data]
      (fun i => decide (2 ≤ i)) 3).queue = [] ∧
    (push_changes (some (("t").data)) (some (("u").data)) [("c1").data]
      (fun i => decide (2 ≤ i)) 3).delays = [1, 2] ∧
    (push_changes (some (("t").data)) (some (("u").data)) [("c1").data]
      (fun _ => false) 3).result.success = false ∧
    (push_changes (some (("t").data)) (some (("u").data)) [("c1").data]
      (fun _ => false) 3).queue = [("c1").data] ∧
    (push_changes (some (("t").data)) (some (("u").data)) [("c1").data]
      (fun _ => false) 3).delays = [1, 2, 4] :=
  push_retry_backoff (("t").data) (("u").data) [("c1").data] (by simp) (by simp) (by simp)

/-! ## Claim theorems: batch commit -/

theorem batchGo_wellformed : ∀ (ops : List GitOperation) (t : WorkTree),
    ops.all opWellFormed = true →
    (batchGo t ops).snd.snd = none ∧
    ((batchGo t ops).snd.fst = [] ↔ allNoopDeletes t ops = true) := by
  intro ops
  induction ops with
  | nil => intro t _; exact ⟨rfl, by simp [batchGo, allNoopDeletes]⟩
  | cons op rest ih =>
    intro t hwf
    simp only [List.all_cons, Bool.and_eq_true] at hwf
    cases hop : op.operation_type with
    | delete =>
      by_cases hhas : treeHas t op.file_path = true
      · have := ih (treeErase t op.file_path) hwf.2
        unfold batchGo
        rw [hop]
        simp only [hhas, if_true]
        refine ⟨this.1, ?_⟩
        constructor
        · intro hcontra
          exact absurd hcontra (by simp)
        · intro hnoop
          unfold allNoopDeletes at hnoop
          rw [hhas] at hnoop
          simp at hnoop
      · have hhas2 : treeHas t op.file_path = false := Bool.eq_false_iff.mpr hhas
        have := ih t hwf.2
        unfold batchGo
        rw [hop]
        simp only [hhas2, Bool.false_eq_true, if_false]
        refine ⟨this.1, ?_⟩
        have hcons : allNoopDeletes t (op :: rest) =
            ((op.operation_type == OpType.delete) && (!(treeHas t op.file_path)) &&
              allNoopDeletes t rest) := rfl
        rw [this.2, hcons, hop, hhas2]
        simp
    | create =>
      unfold opWellFormed at hwf
      rw [hop] at hwf
      cases hc : op.content with
      | none => rw [hc] at hwf; simp at hwf
      | some c =>
        rw [hc] at hwf
        have hce : c.isEmpty = false := by
          have := hwf.1
          simp only [Bool.not_eq_true'] at this
          exact this
        have := ih (treeInsert t op.file_path c) hwf.2
        unfold batchGo
        rw [hop, hc]
        simp only [hce, Bool.false_eq_true, if_false]
        refine ⟨this.1, ?_⟩
        constructor
        · intro hcontra
          exact absurd hcontra (by simp)
        · intro hnoop
          unfold allNoopDeletes at hnoop
          rw [hop] at hnoop
          simp at hnoop
    | update =>
      unfold opWellFormed at hwf
      rw [hop] at hwf
      cases hc : op.content with
      | none => rw [hc] at hwf; simp at hwf
      | some c =>
        rw [hc] at hwf
        have hce : c.isEmpty = false := by
          have := hwf.1
          simp only [Bool.not_eq_true'] at this
          exact this
        have := ih (treeInsert t op.file_path c) hwf.2
        unfold batchGo
        rw [hop, hc]
        simp only [hce, Bool.false_eq_true, if_false]
        refine ⟨this.1, ?_⟩
        constructor
        · intro hcontra
          exact absurd hcontra (by simp)
        · intro hnoop
          unfold allNoopDeletes at hnoop
          rw [hop] at hnoop
          simp at hnoop

theorem batchGo_files : ∀ (ops : List GitOperation) (t : WorkTree),
    ops.all opWellFormed = true →
    (batchGo t ops).snd.fst = mutatedPaths t ops := by
  intro ops
  induction ops with
  | nil => intro t _; rfl
  | cons op rest ih =>
    intro t hwf
    simp only [List.all_cons, Bool.and_eq_true] at hwf
    cases hop : op.operation_type with
    | delete =>
      by_cases hhas : treeHas t op.file_path = true
      · unfold batchGo mutatedPaths
        rw [hop]
        simp only [hhas, if_true]
        rw [ih (treeErase t op.file_path) hwf.2]
      · have hhas2 : treeHas t op.file_path = false := Bool.eq_false_iff.mpr hhas
        unfold batchGo mutatedPaths
        rw [hop]
        simp only [hhas2, Bool.false_eq_true, if_false]
        exact ih t hwf.2
    | create =>
      unfold opWellFormed at hwf
      rw [hop] at hwf
      cases hc : op.content with
      | none => rw [hc] at hwf; simp at hwf
      | some c =>
        rw [hc] at hwf
        have hce : c.isEmpty = false := by
          have := hwf.1
          simp only [Bool.not_eq_true'] at this
          exact this
        unfold batchGo mutatedPaths
        rw [hop, hc]
        simp only [hce, Bool.false_eq_true, if_false]
        rw [ih (treeInsert t op.file_path c) hwf.2]
    | update =>
      unfold opWellFormed at hwf
      rw [hop] at hwf
      cases hc : op.content with
      | none => rw [hc] at hwf; simp at hwf
      | some c =>
        rw [hc] at hwf
        have hce : c.isEmpty = false := by
          have := hwf.1
          simp only [Bool.not_eq_true'] at this
          exact this
        unfold batchGo mutatedPaths
        rw [hop, hc]
        simp only [hce, Bool.false_eq_true, if_false]
        rw [ih (treeInsert t op.file_path c) hwf.2]

/-- Claim C5 (amended): for a batch of well-formed operations, `batch_commit`
always succeeds; it creates exactly one commit when its changed-file list is
nonempty and none otherwise; the changed-file list is empty exactly when
every operation is a delete of an absent path; and the changed-file list is
precisely every create/update path plus every delete path whose file existed
when the delete executed, in operation order. Every create or update counts
as a change and is committed even when the written content is identical to
the existing content. -/
theorem batch_commit_change_accounting (t : WorkTree) (ops : List GitOperation)
    (h : ops.all opWellFormed = true) :
    (batch_commit t ops).result.success = true ∧
    (batch_commit t ops).commits =
      (if (batch_commit t ops).result.files_changed.isEmpty then 0 else 1) ∧
    ((batch_commit t ops).result.files_changed = [] ↔ allNoopDeletes t ops = true) ∧
    (batch_commit t ops).result.files_changed = mutatedPaths t ops := by
  obtain ⟨herr, hiff⟩ := batchGo_wellformed ops t h
  have hfiles := batchGo_files ops t h
  unfold batch_commit
  simp only [herr]
  by_cases hfe : (batchGo t ops).snd.fst.isEmpty = true
  · simp only [hfe, if_true]
    refine ⟨by trivial, by trivial, ?_, ?_⟩
    · constructor
      · intro _
        exact hiff.mp (List.isEmpty_iff.mp hfe)
      · intro _
        trivial
    · rw [← hfiles]
      exact (List.isEmpty_iff.mp hfe).symm
  · have hfe2 : (batchGo t ops).snd.fst.isEmpty = false := Bool.eq_false_iff.mpr hfe
    simp only [hfe2, Bool.false_eq_true, if_false]
    exact ⟨by trivial, by simp [hfe2], hiff, hfiles⟩

/-- Witness for C5 at a concrete batch: one delete of an absent path is an
all-no-op batch, yielding success with zero files changed and no commit. -/
theorem batch_commit_change_accounting_witness :
    (batch_commit [] [⟨OpType.delete, ("z.md").data, none⟩]).result.success = true ∧
    (batch_commit [] [⟨OpType.delete, ("z.md").data, none⟩]).commits =
      (if (batch_commit [] [⟨OpType.delete, ("z.md").data, none⟩]).result.files_changed.isEmpty
       then 0 else 1) ∧
    ((batch_commit [] [⟨OpType.delete, ("z.md").data, none⟩]).result.files_changed = [] ↔
      allNoopDeletes [] [⟨OpType.delete, ("z.md").data, none⟩] = true) ∧
    (batch_commit [] [⟨OpType.delete, ("z.md").data, none⟩]).result.files_changed =
      mutatedPaths [] [⟨OpType.delete, ("z.md").data, none⟩] :=
  batch_commit_change_accounting [] [⟨OpType.delete, ("z.md").data, none⟩] (by decide)

/-- Counterexample for C5 as stated: a batch whose only operation rewrites a
file with content identical to what it already holds mutates nothing (the
working tree is unchanged), yet `batch_commit` reports the path as changed
and creates one commit, not zero. -/
theorem batch_commit_identical_rewrite_counterexample :
    (batch_commit [((("a.md").data), ['x'])]
      [⟨OpType.update, ("a.md").data, some ['x']⟩]).tree = [((("a.md").data), ['x'])] ∧
    (batch_commit [((("a.md").data), ['x'])]
      [⟨OpType.update, ("a.md").data, some ['x']⟩]).result.files_changed = [("a.md").data] ∧
    (batch_commit [((("a.md").data), ['x'])]
      [⟨OpType.update, ("a.md").data, some ['x']⟩]).commits = 1 := by
  refine ⟨rfl, rfl, rfl⟩

/-! ## Claim theorems: orchestrator commit-failure path -/

/-- Claim C1 (code behavior at the failing input): at a valid path and
content, with the file write succeeding and the git commit failing,
`create_or_update_memory_node` does not return a node carrying the
"uncommitted" sentinel: `commit_file` returns a failure result instead of
raising, the missing commit sha fails metadata validation, and the call
raises a service error. -/
theorem create_or_update_commit_failure_raises :
    create_or_update_memory_node [] true (.ok ()) (.error (("commit failed").data))
        (("notes/a.md").data) (("hello").data) =
      .error ((("Internal error creating/updating memory node: ").data) ++
        (("validation error: sha must be a string").data)) ∧
    (commit_file true (.ok ()) (.error (("commit failed").data))
      (("notes/a.md").data)).success = false ∧
    (commit_file true (.ok ()) (.error (("commit failed").data))
      (("notes/a.md").data)).commit_sha = none := by
  refine ⟨rfl, rfl, rfl⟩

/-! ## Claim theorems: remote URL mismatch at initialization -/

/-- Counterexample for C2 as stated: with a remote URL configured and an
existing repository whose origin URL differs from it,
`initialize_repository` succeeds (returning the mismatch-warning flag)
instead of raising a repository error. -/
theorem initialize_remote_mismatch_counterexample :
    initialize_repository
        ⟨some (("https://github.com/a/b").data), some (("tok").data)⟩
        ⟨true, some (("https://github.com/c/d").data), false⟩ =
      .ok (⟨true, some (("https://github.com/c/d").data), true⟩, true) := rfl

/-- Claim C2 (amended): on a remote URL mismatch against an existing
repository, `initialize_repository` only logs a warning and succeeds, while
the separate startup checks raise the startup-fatal mismatch error. -/
theorem initialize_warns_and_startup_fails (s : GitSettings) (r : RepoState)
    (url actual : List Char) (hcfg : s.git_remote_url = some url)
    (hu : url.isEmpty = false) (hdir : r.gitDirExists = true)
    (horig : r.originUrl = some actual) (hne : (actual == url) = false) :
    initialize_repository s r = .ok ({ r with userConfigured := true }, true) ∧
    exceptOk (startup_remote_check s r) = false := by
  obtain ⟨gd, ou, uc⟩ := r
  simp only at hdir horig
  subst hdir
  subst horig
  constructor
  · unfold initialize_repository verify_remote_config
    rw [hcfg]
    simp [hu, hne]
  · unfold startup_remote_check
    rw [hcfg]
    simp [hu, hne, exceptOk]

/-- Witness for C2: a concrete configuration and repository state with
differing URLs. -/
theorem initialize_warns_and_startup_fails_witness :
    initialize_repository ⟨some (("u1").data), none⟩ ⟨true, some (("u2").data), false⟩ =
      .ok (⟨true, some (("u2").data), true⟩, true) ∧
    exceptOk (startup_remote_check ⟨some (("u1").data), none⟩
      ⟨true, some (("u2").data), false⟩) = false :=
  initialize_warns_and_startup_fails ⟨some (("u1").data), none⟩
    ⟨true, some (("u2").data), false⟩ (("u1").data) (("u2").data) rfl rfl rfl rfl (by decide)

/-! ## Claim theorems: search highlighting -/

